import Mathlib

/-!
Verification of the transcription control pipeline of `whisper-burn`
(`src/transcribe.rs`): the audio windower (`waveform_to_mel_tensor`),
the chunk stitcher (`find_chunk_overlap`) and the orchestrator's merge
step (`waveform_to_text`), the special-token mask policy and the
beam-search finish predicate (`mels_to_text`), and the spectrogram
clip-and-pad step.  Rust slices of tokens become `List Nat`; `usize`
arithmetic becomes `Nat` arithmetic (`saturating_sub` is `Nat`
subtraction); `f32` scores with `-inf` masking become `WithBot ℚ` with `⊥`;
fallible operations return `Option`, and a potential `unwrap` panic is
made explicit with an `Option`-valued step.
-/

namespace WhisperBurn

/-! ## Chunk stitcher: `find_chunk_overlap` (transcribe.rs:246-280)

The Rust loop, for each `offset` in `0..n_offsets`, forms
`prev_tokens.iter().skip(prev_start).zip(curr_tokens).enumerate()
  .filter(|(_, (&old, &new))| old == new)`,
counts it, and on a strict improvement records
`(prev_start + first_match_index, first_match_index)`. -/

/-- The aligned pairs compared at a given offset:
`prev[len(prev)-1-offset ..]` zipped with `curr` (zip stops at the
shorter side), as in transcribe.rs:258-261. -/
def alignedPairs (prev curr : List Nat) (offset : Nat) : List (Nat × Nat) :=
  (prev.drop (prev.length - 1 - offset)).zip curr

/-- `n_overlap` at an offset: the number of aligned equal positions
(transcribe.rs:265, the `count` of the filtered iterator). -/
def countAt (prev curr : List Nat) (offset : Nat) : Nat :=
  (alignedPairs prev curr offset).countP (fun p => p.1 == p.2)

/-- Index, within the compared window, of the first aligned equal pair
(transcribe.rs:269, `overlap_iter.next().unwrap().0`). -/
def firstMatchIdx (prev curr : List Nat) (offset : Nat) : Nat :=
  (alignedPairs prev curr offset).findIdx (fun p => p.1 == p.2)

/-- One iteration of the `for offset in 0..n_offsets` loop
(transcribe.rs:256-273), acting on the state
`(max_overlap, max_overlap_indices)`. -/
def fcoStep (prev curr : List Nat) (st : Nat × Nat × Nat) (offset : Nat) :
    Nat × Nat × Nat :=
  let n := countAt prev curr offset
  if st.1 < n then
    let ci := firstMatchIdx prev curr offset
    (n, prev.length - 1 - offset + ci, ci)
  else st

/-- `n_offsets = prev_tokens.len().min(curr_tokens.len()).min(max_n_offsets)`
(transcribe.rs:254). -/
def nOffsets (prev curr : List Nat) (max_n_offsets : Nat) : Nat :=
  min (min prev.length curr.length) max_n_offsets

/-- The loop state after running over offsets `0..n` (initial state
`max_overlap = 0`, `max_overlap_indices = (0, 0)`, transcribe.rs:252-253). -/
def fcoStateN (prev curr : List Nat) (n : Nat) : Nat × Nat × Nat :=
  (List.range n).foldl (fcoStep prev curr) (0, 0, 0)

/-- The maximum of `n_overlap` over offsets `0..n` (with `0` for an empty
range), which the loop tracks in `max_overlap`. -/
def maxCountN (prev curr : List Nat) (n : Nat) : Nat :=
  (List.range n).foldl (fun m d => max m (countAt prev curr d)) 0

/-- The maximal aligned-match count over all examined offsets. -/
def maxCount (prev curr : List Nat) (max_n_offsets : Nat) : Nat :=
  maxCountN prev curr (nOffsets prev curr max_n_offsets)

/-- `find_chunk_overlap` (transcribe.rs:246-280): run the loop, then
return `Some(max_overlap_indices)` iff `max_overlap >= min_n_overlaps`. -/
def find_chunk_overlap (prev curr : List Nat)
    (max_n_offsets min_n_overlaps : Nat) : Option (Nat × Nat) :=
  let st := fcoStateN prev curr (nOffsets prev curr max_n_offsets)
  if min_n_overlaps ≤ st.1 then some (st.2.1, st.2.2) else none

/-- The orchestrator's merge step (transcribe.rs:43-50): on
`Some((prev_index, curr_index))` truncate `tokens` to `prev_index` and
append `new_tokens[curr_index..]`; on `None` append `new_tokens` whole.
The call site fixes `max_n_offsets = 40` and `min_n_overlaps = 3`. -/
def mergeChunk (tokens new_tokens : List Nat) : List Nat :=
  match find_chunk_overlap tokens new_tokens 40 3 with
  | some (prev_index, curr_index) =>
      tokens.take prev_index ++ new_tokens.drop curr_index
  | none => tokens ++ new_tokens

/-! ### Panic-explicit version of the stitcher

The Rust body contains two partial operations: the `usize` subtraction
`prev_tokens.len() - 1 - offset` and the `overlap_iter.next().unwrap()`
(transcribe.rs:257 and 269).  `fcoStepP` returns `none` exactly when one
of them would panic, mirroring the iterator pipeline literally
(`enumerate` = `List.enum`, `filter`, `next()` = `head?`). -/

/-- One loop iteration with panics explicit: `none` models a panic from
the `usize` underflow or from the `unwrap` of the first match. -/
def fcoStepP (prev curr : List Nat) (st : Nat × Nat × Nat) (offset : Nat) :
    Option (Nat × Nat × Nat) :=
  if prev.length ≤ offset then none
  else
    let pairs := (prev.drop (prev.length - 1 - offset)).zip curr
    let n := (pairs.enum.filter (fun ip => ip.2.1 == ip.2.2)).length
    if st.1 < n then
      match (pairs.enum.filter (fun ip => ip.2.1 == ip.2.2)).head? with
      | none => none
      | some ip => some (n, prev.length - 1 - offset + ip.1, ip.1)
    else some st

/-- `find_chunk_overlap` with panics explicit: the outer `none` models a
panic somewhere in the loop. -/
def find_chunk_overlapP (prev curr : List Nat)
    (max_n_offsets min_n_overlaps : Nat) : Option (Option (Nat × Nat)) :=
  ((List.range (nOffsets prev curr max_n_offsets)).foldlM
      (fcoStepP prev curr) (0, 0, 0)).map
    (fun st => if min_n_overlaps ≤ st.1 then some (st.2.1, st.2.2) else none)

end WhisperBurn

namespace WhisperBurn

/-! ## Audio windower: `waveform_to_mel_tensor` (transcribe.rs:58-82) -/

/-- `shift = n_samples_per_tensor.saturating_sub(chunk_overlap).max(1)`
(transcribe.rs:67); `Nat` subtraction is saturating. -/
def shiftOf (window_len chunk_overlap : Nat) : Nat :=
  max (window_len - chunk_overlap) 1

/-- `iter_len = waveform.len().saturating_sub(1).div(shift) + 1`
(transcribe.rs:68). -/
def numWindows (wave_len shift : Nat) : Nat :=
  (wave_len - 1) / shift + 1

/-- `start = i * shift` (transcribe.rs:71). -/
def windowStart (shift i : Nat) : Nat := i * shift

/-- `end = (start + n_samples_per_tensor).min(waveform.len())`
(transcribe.rs:72). -/
def windowEnd (wave_len window_len shift i : Nat) : Nat :=
  min (i * shift + window_len) wave_len

/-! ## Beam-search finish predicate (transcribe.rs:219-225) -/

/-- `beamsearch_is_finished`: a sequence is finished iff its last token
exists and equals the end-of-text token. -/
def beamsearch_is_finished (end_token : Nat) (toks : List Nat) : Bool :=
  match toks.getLast? with
  | some t => t == end_token
  | none => false

/-! ## Special-token mask (transcribe.rs:141-157, 181-185)

`f32` scores with a `-inf` mask are modelled as `WithBot ℚ`: raw
decoder logits are finite values (every `f32` value is a rational), the
mask entries are `0` or `⊥`, and the IEEE identity
`x + (-inf) = -inf` for finite `x` is `WithBot.add_bot`. -/

/-- `special_tokens_maskout` (transcribe.rs:144-152): for each token id
in `0..vocab_size`, `-inf` if the tokenizer reports it special, else
`0`. -/
def special_tokens_maskout (vocab_size : Nat) (is_special : Nat → Bool) :
    List (WithBot ℚ) :=
  (List.range vocab_size).map
    (fun token => if is_special token then (⊥ : WithBot ℚ) else 0)

/-- The per-token score fed to `log_softmax` (transcribe.rs:181-185):
the raw logits unchanged when `max_seq_len > 5`, otherwise the logits
plus the maskout vector. -/
def effective_score (vocab_size : Nat) (is_special : Nat → Bool)
    (logits : Nat → ℚ) (max_seq_len token : Nat) : WithBot ℚ :=
  if 5 < max_seq_len then (logits token : WithBot ℚ)
  else (logits token : WithBot ℚ) +
    (special_tokens_maskout vocab_size is_special).getD token 0

/-! ## Special-token resolution (transcribe.rs:121-127)

`mels_to_text` resolves seven special tokens from the tokenizer and
`unwrap`s every lookup.  The tokenizer collaborator is external
(`token.rs` is outside the analysed sources); per the spec's interface
section its `special_token` lookup is fallible, modelled as `Option`. -/

/-- The seven special-token kinds looked up by `mels_to_text`, in
source order. -/
inductive SpecialTokenKind
  | startofTranscript
  | transcribeTask
  | startofPrev
  | languageTag
  | timestampZero
  | endofText
  | noTimeStamps
deriving DecidableEq

/-- The tokenizer collaborator, reduced to its fallible special-token
lookup (spec interface: `special_token(kind) -> Token | error`). -/
structure TokenizerModel where
  special_token : SpecialTokenKind → Option Nat

/-- The error kinds the spec says a failed lookup should surface. -/
inductive TokenError
  | unknownLanguage
  | tokenizerError
deriving DecidableEq

/-- Outcome of the token-resolution prelude: a value, a returned error,
or a panic (`unwrap` on a failed lookup). -/
inductive ResolveOutcome (α : Type)
  | ok : α → ResolveOutcome α
  | err : TokenError → ResolveOutcome α
  | panicked : ResolveOutcome α
deriving DecidableEq

/-- The token-resolution prelude of `mels_to_text`
(transcribe.rs:121-127): each lookup is `unwrap`ped, so a failed lookup
panics; no lookup failure is converted into an error value. -/
def resolve_special_tokens (bpe : TokenizerModel) :
    ResolveOutcome (Nat × Nat × Nat × Nat × Nat × Nat × Nat) :=
  match bpe.special_token .startofTranscript with
  | none => .panicked
  | some start_token =>
  match bpe.special_token .transcribeTask with
  | none => .panicked
  | some transcription_token =>
  match bpe.special_token .startofPrev with
  | none => .panicked
  | some start_of_prev_token =>
  match bpe.special_token .languageTag with
  | none => .panicked
  | some lang_token =>
  match bpe.special_token .timestampZero with
  | none => .panicked
  | some first_timestamp_token =>
  match bpe.special_token .endofText with
  | none => .panicked
  | some end_token =>
  match bpe.special_token .noTimeStamps with
  | none => .panicked
  | some notimestamp =>
    .ok (start_token, transcription_token, start_of_prev_token, lang_token,
      first_timestamp_token, end_token, notimestamp)

/-! ## Spectrogram clip and pad (transcribe.rs:102-118)

Only the time axis matters: a spectrogram is a list of frames.  The
`Tensor::cat` of the clipped slice with a zero block of `padding` frames
becomes `take` followed by `++ replicate`. -/

/-- Clip the spectrogram to `min(n_ctx, n_ctx_max_encoder - padding)`
frames and append `padding` zero frames (transcribe.rs:112-118). -/
def padAndClip {α : Type} (zero : α) (frames : List α)
    (n_ctx_max padding : Nat) : List α :=
  frames.take (min frames.length (n_ctx_max - padding)) ++
    List.replicate padding zero

/-! ## Loop invariants for the stitcher -/

theorem fcoStateN_succ (prev curr : List Nat) (n : Nat) :
    fcoStateN prev curr (n+1) = fcoStep prev curr (fcoStateN prev curr n) n := by
  unfold fcoStateN
  rw [List.range_succ, List.foldl_append]
  rfl

theorem maxCountN_succ (prev curr : List Nat) (n : Nat) :
    maxCountN prev curr (n+1) =
      max (maxCountN prev curr n) (countAt prev curr n) := by
  unfold maxCountN
  rw [List.range_succ, List.foldl_append]
  rfl

/-- The loop's `max_overlap` component is the running maximum of the
per-offset match counts. -/
theorem fcoStateN_fst (prev curr : List Nat) (n : Nat) :
    (fcoStateN prev curr n).1 = maxCountN prev curr n := by
  induction n with
  | zero => rfl
  | succ n ih =>
    rw [fcoStateN_succ, maxCountN_succ]
    by_cases h : (fcoStateN prev curr n).1 < countAt prev curr n
    · simp only [fcoStep, h, if_true]
      omega
    · simp only [fcoStep, h, if_false]
      omega

theorem countAt_le_maxCountN (prev curr : List Nat) {e n : Nat} (he : e < n) :
    countAt prev curr e ≤ maxCountN prev curr n := by
  induction n with
  | zero => omega
  | succ n ih =>
    rw [maxCountN_succ]
    rcases Nat.lt_succ_iff_lt_or_eq.mp he with h | h
    · exact le_trans (ih h) (le_max_left _ _)
    · subst h
      exact le_max_right _ _

/-- Argmax invariant: when some examined offset has a positive count,
the recorded indices come from the first offset attaining the maximal
count (later equal counts do not overwrite, transcribe.rs:266). -/
theorem fcoStateN_argmax (prev curr : List Nat) :
    ∀ n, 0 < maxCountN prev curr n →
      ∃ d, d < n ∧ countAt prev curr d = maxCountN prev curr n ∧
        (∀ e, e < d → countAt prev curr e < maxCountN prev curr n) ∧
        (fcoStateN prev curr n).2 =
          (prev.length - 1 - d + firstMatchIdx prev curr d,
            firstMatchIdx prev curr d) := by
  intro n
  induction n with
  | zero =>
    intro h
    simp [maxCountN] at h
  | succ n ih =>
    intro hpos
    have hfst := fcoStateN_fst prev curr n
    rw [fcoStateN_succ]
    by_cases h : (fcoStateN prev curr n).1 < countAt prev curr n
    · have hmax : maxCountN prev curr (n+1) = countAt prev curr n := by
        rw [maxCountN_succ]
        omega
      refine ⟨n, Nat.lt_succ_self n, hmax.symm, ?_, ?_⟩
      · intro e he'
        have := countAt_le_maxCountN prev curr he'
        omega
      · simp only [fcoStep, h, if_true]
    · have hmax : maxCountN prev curr (n+1) = maxCountN prev curr n := by
        rw [maxCountN_succ]
        omega
      rw [hmax] at hpos ⊢
      obtain ⟨d, hd, hcd, hlt, hsnd⟩ := ih hpos
      refine ⟨d, by omega, hcd, hlt, ?_⟩
      simp only [fcoStep, h, if_false]
      exact hsnd

/-! ## Facts about the first-match index -/

/-- `countP` is the length of the filtered enumeration, regardless of
the enumeration's starting index. -/
theorem enumFrom_filter_length :
    ∀ (l : List (Nat × Nat)) (k : Nat),
      ((List.enumFrom k l).filter (fun ip => ip.2.1 == ip.2.2)).length =
        l.countP (fun q => q.1 == q.2) := by
  intro l
  induction l with
  | nil => intro k; rfl
  | cons x t ih =>
    intro k
    rw [List.enumFrom_cons, List.filter_cons, List.countP_cons]
    by_cases hx : (x.1 == x.2) = true
    · have hx' : ((k, x).2.1 == (k, x).2.2) = true := by simpa using hx
      rw [hx']
      simp [ih (k+1), hx]
    · have hx' : ((k, x).2.1 == (k, x).2.2) = false := by
        simpa using hx
      rw [hx']
      simp [ih (k+1), hx]

/-- The head of the filtered enumeration carries the `findIdx` of the
first match, when a match exists. -/
theorem enumFrom_filter_head :
    ∀ (l : List (Nat × Nat)) (k : Nat),
      0 < l.countP (fun q => q.1 == q.2) →
      ∃ a, ((List.enumFrom k l).filter (fun ip => ip.2.1 == ip.2.2)).head? =
            some (k + l.findIdx (fun q => q.1 == q.2), a) ∧
          (a.1 == a.2) = true := by
  intro l
  induction l with
  | nil =>
    intro k h
    simp [List.countP_nil] at h
  | cons x t ih =>
    intro k h
    by_cases hx : (x.1 == x.2) = true
    · refine ⟨x, ?_, hx⟩
      simp [List.enumFrom_cons, List.findIdx_cons, hx]
    · have ht : 0 < t.countP (fun q => q.1 == q.2) := by
        rw [List.countP_cons] at h
        simpa [hx] using h
      obtain ⟨a, ha, hpa⟩ := ih (k+1) ht
      refine ⟨a, ?_, hpa⟩
      rw [List.enumFrom_cons, List.filter_cons]
      have hx' : ((k, x).2.1 == (k, x).2.2) = false := by
        simpa using hx
      rw [hx']
      simp only [Bool.false_eq_true, if_false]
      rw [ha]
      have hfi : List.findIdx (fun q : Nat × Nat => q.1 == q.2) (x :: t) =
          List.findIdx (fun q : Nat × Nat => q.1 == q.2) t + 1 := by
        rw [List.findIdx_cons]
        simp [hx]
      rw [hfi]
      have hk : k + 1 + List.findIdx (fun q : Nat × Nat => q.1 == q.2) t =
          k + (List.findIdx (fun q : Nat × Nat => q.1 == q.2) t + 1) := by
        omega
      rw [hk]

/-! ## Agreement of the panic-explicit stitcher with the total one -/

theorem fcoStepP_eq (prev curr : List Nat) (st : Nat × Nat × Nat) (d : Nat)
    (hd : d < prev.length) :
    fcoStepP prev curr st d = some (fcoStep prev curr st d) := by
  have hlen : (((prev.drop (prev.length - 1 - d)).zip curr).enum.filter
      (fun ip => ip.2.1 == ip.2.2)).length = countAt prev curr d := by
    have := enumFrom_filter_length ((prev.drop (prev.length - 1 - d)).zip curr) 0
    simpa [List.enum, countAt, alignedPairs] using this
  simp only [fcoStepP, if_neg (by omega : ¬ prev.length ≤ d), hlen]
  by_cases h : st.1 < countAt prev curr d
  · have hpos : 0 < ((prev.drop (prev.length - 1 - d)).zip curr).countP
        (fun q => q.1 == q.2) := by
      have : countAt prev curr d =
          ((prev.drop (prev.length - 1 - d)).zip curr).countP
            (fun q => q.1 == q.2) := rfl
      omega
    obtain ⟨a, ha, _⟩ :=
      enumFrom_filter_head ((prev.drop (prev.length - 1 - d)).zip curr) 0 hpos
    rw [show ((prev.drop (prev.length - 1 - d)).zip curr).enum =
        List.enumFrom 0 ((prev.drop (prev.length - 1 - d)).zip curr) from rfl]
    rw [ha]
    simp only [fcoStep, h, if_true, firstMatchIdx, alignedPairs]
    simp
  · simp only [fcoStep, h, if_false]

theorem foldP_eq (prev curr : List Nat) :
    ∀ n, n ≤ prev.length → ∀ st : Nat × Nat × Nat,
      (List.range n).foldlM (fcoStepP prev curr) st =
        some ((List.range n).foldl (fcoStep prev curr) st) := by
  intro n
  induction n with
  | zero => intro _ st; rfl
  | succ n ih =>
    intro hn st
    rw [List.range_succ, List.foldlM_append, List.foldl_append, ih (by omega) st]
    simp [fcoStepP_eq prev curr _ n (by omega)]

/-- Shared helper: when every examined offset's count stays below the
threshold, the stitcher reports no overlap. -/
theorem fco_none_of_lt (prev curr : List Nat) {maxo mino : Nat}
    (h : maxCount prev curr maxo < mino) :
    find_chunk_overlap prev curr maxo mino = none := by
  have hfst := fcoStateN_fst prev curr (nOffsets prev curr maxo)
  unfold maxCount at h
  simp only [find_chunk_overlap]
  rw [if_neg (by omega)]

/-! ## Claim theorems for the stitcher -/

/-- C1: on `prev = [10,11,12,13,14]`, `curr = [12,13,14,15,16]`,
`max_n_offsets = 40`, `min_n_overlaps = 3`, `find_chunk_overlap` returns
`Some((2, 0))`, and the orchestrator's merge step (truncate `prev` to
length 2, then append `curr[0..]`) yields `[10,11,12,13,14,15,16]`. -/
theorem stitcher_concrete_overlap :
    find_chunk_overlap [10,11,12,13,14] [12,13,14,15,16] 40 3 = some (2, 0) ∧
      mergeChunk [10,11,12,13,14] [12,13,14,15,16] =
        [10, 11, 12, 13, 14, 15, 16] := by
  constructor <;> rfl

/-- C2: `find_chunk_overlap` examines offsets
`0 .. min(len(prev), len(curr), max_n_offsets) - 1`; whenever some
examined offset has a positive aligned-match count, the winning offset
`d` is the first to attain the strictly largest count (all earlier
offsets count strictly less), `curr_index` is the position of the first
aligned equal pair at that offset (the pair there is equal, all earlier
aligned pairs are unequal), `prev_index = (len(prev)-1-d) + curr_index`,
and the function returns these exactly when the count reaches the
threshold. -/
theorem find_chunk_overlap_argmax (prev curr : List Nat)
    (max_n_offsets min_n_overlaps : Nat)
    (hpos : 0 < maxCount prev curr max_n_offsets) :
    ∃ d, d < nOffsets prev curr max_n_offsets ∧
      countAt prev curr d = maxCount prev curr max_n_offsets ∧
      (∀ e, e < d → countAt prev curr e < maxCount prev curr max_n_offsets) ∧
      (∃ q, (alignedPairs prev curr d).get? (firstMatchIdx prev curr d) =
            some q ∧ q.1 = q.2 ∧
          ∀ j r, j < firstMatchIdx prev curr d →
            (alignedPairs prev curr d).get? j = some r → r.1 ≠ r.2) ∧
      find_chunk_overlap prev curr max_n_offsets min_n_overlaps =
        (if min_n_overlaps ≤ maxCount prev curr max_n_offsets
         then some (prev.length - 1 - d + firstMatchIdx prev curr d,
                    firstMatchIdx prev curr d)
         else none) := by
  obtain ⟨d, hd, hcd, hlt, hsnd⟩ :=
    fcoStateN_argmax prev curr (nOffsets prev curr max_n_offsets) hpos
  have hfst := fcoStateN_fst prev curr (nOffsets prev curr max_n_offsets)
  refine ⟨d, hd, hcd, hlt, ?_, ?_⟩
  · have hcp : 0 < (alignedPairs prev curr d).countP (fun q => q.1 == q.2) := by
      have : countAt prev curr d =
          (alignedPairs prev curr d).countP (fun q => q.1 == q.2) := rfl
      unfold maxCount at hpos
      omega
    have hex : ∃ x ∈ alignedPairs prev curr d, (x.1 == x.2) = true :=
      List.countP_pos_iff.mp hcp
    have hflt : firstMatchIdx prev curr d < (alignedPairs prev curr d).length :=
      List.findIdx_lt_length_of_exists hex
    refine ⟨(alignedPairs prev curr d).get ⟨firstMatchIdx prev curr d, hflt⟩,
      ?_, ?_, ?_⟩
    · rw [List.get?_eq_get hflt]
    · have := @List.findIdx_getElem _ (fun q : Nat × Nat => q.1 == q.2)
        (alignedPairs prev curr d) hflt
      simpa [firstMatchIdx, List.get_eq_getElem] using this
    · intro j r hj hr
      have hjlen : j < (alignedPairs prev curr d).length := by omega
      have hfalse := @List.not_of_lt_findIdx _
        (fun q : Nat × Nat => q.1 == q.2) (alignedPairs prev curr d) j hj
      have : r = (alignedPairs prev curr d).get ⟨j, hjlen⟩ := by
        rw [List.get?_eq_get hjlen] at hr
        exact (Option.some.inj hr).symm
      subst this
      simp only [List.get_eq_getElem] at hfalse ⊢
      intro hcontra
      rw [hcontra] at hfalse
      simp at hfalse
  · unfold maxCount at hpos ⊢
    simp only [find_chunk_overlap]
    by_cases hth : min_n_overlaps ≤ maxCountN prev curr
        (nOffsets prev curr max_n_offsets)
    · rw [if_pos (by omega), if_pos hth, hsnd]
    · rw [if_neg (by omega), if_neg hth]

/-- C3: whenever the maximal aligned-match count over the examined
offsets falls below `min_n_overlaps`, `find_chunk_overlap` returns
`None`; at the orchestrator's parameters (`40`, `3`) the merge step then
appends `curr` in full after `prev` with no truncation. -/
theorem find_chunk_overlap_below_threshold (prev curr : List Nat)
    (maxo mino : Nat) (h : maxCount prev curr maxo < mino) :
    find_chunk_overlap prev curr maxo mino = none ∧
      (maxCount prev curr 40 < 3 → mergeChunk prev curr = prev ++ curr) := by
  refine ⟨fco_none_of_lt prev curr h, fun h40 => ?_⟩
  unfold mergeChunk
  rw [fco_none_of_lt prev curr h40]

/-- C9: `find_chunk_overlap` is total.  The panic-explicit rendition
(`none` = a panic from the `usize` underflow at transcribe.rs:257 or
from the `unwrap` at transcribe.rs:269) always returns `some` of what
the total function computes, for every pair of slices (empty ones
included) and all parameters. -/
theorem find_chunk_overlap_total (prev curr : List Nat)
    (max_n_offsets min_n_overlaps : Nat) :
    find_chunk_overlapP prev curr max_n_offsets min_n_overlaps =
      some (find_chunk_overlap prev curr max_n_offsets min_n_overlaps) := by
  have hle : nOffsets prev curr max_n_offsets ≤ prev.length := by
    unfold nOffsets
    omega
  unfold find_chunk_overlapP find_chunk_overlap fcoStateN
  rw [foldP_eq prev curr _ hle _]
  rfl

/-- Witness for C2 at the spec's concrete stitcher example. -/
theorem find_chunk_overlap_argmax_witness :
    0 < maxCount [10,11,12,13,14] [12,13,14,15,16] 40 ∧
      (∃ d, d < nOffsets [10,11,12,13,14] [12,13,14,15,16] 40 ∧
        countAt [10,11,12,13,14] [12,13,14,15,16] d =
          maxCount [10,11,12,13,14] [12,13,14,15,16] 40 ∧
        (∀ e, e < d → countAt [10,11,12,13,14] [12,13,14,15,16] e <
          maxCount [10,11,12,13,14] [12,13,14,15,16] 40) ∧
        (∃ q, (alignedPairs [10,11,12,13,14] [12,13,14,15,16] d).get?
              (firstMatchIdx [10,11,12,13,14] [12,13,14,15,16] d) = some q ∧
            q.1 = q.2 ∧
            ∀ j r, j < firstMatchIdx [10,11,12,13,14] [12,13,14,15,16] d →
              (alignedPairs [10,11,12,13,14] [12,13,14,15,16] d).get? j =
                some r → r.1 ≠ r.2) ∧
        find_chunk_overlap [10,11,12,13,14] [12,13,14,15,16] 40 3 =
          (if 3 ≤ maxCount [10,11,12,13,14] [12,13,14,15,16] 40
           then some ([10,11,12,13,14].length - 1 - d +
                firstMatchIdx [10,11,12,13,14] [12,13,14,15,16] d,
                firstMatchIdx [10,11,12,13,14] [12,13,14,15,16] d)
           else none)) :=
  ⟨by decide,
    find_chunk_overlap_argmax [10,11,12,13,14] [12,13,14,15,16] 40 3 (by decide)⟩

/-- Witness for C3: a positive aligned-match count (`1`) below the
threshold yields `None` and a plain concatenation. -/
theorem find_chunk_overlap_below_threshold_witness :
    maxCount [1,2] [2,9] 40 < 3 ∧
      (find_chunk_overlap [1,2] [2,9] 40 3 = none ∧
        (maxCount [1,2] [2,9] 40 < 3 →
          mergeChunk [1,2] [2,9] = [1,2] ++ [2,9])) :=
  ⟨by decide, find_chunk_overlap_below_threshold [1,2] [2,9] 40 3 (by decide)⟩

/-! ## Claim theorems for the audio windower -/

/-- C4 counterexample: at `L = 0`, `W = 10`, `C = 3` the shift is `7`
and the iterator yields `(0-1)/7 + 1 = 1` window, while
`ceil(0 / 7) = (0 + 7 - 1) / 7 = 0`; so the window count is not
`ceil(L / S)` for every waveform length. -/
theorem windower_count_counterexample :
    shiftOf 10 3 = 7 ∧ numWindows 0 (shiftOf 10 3) = 1 ∧
      (0 + shiftOf 10 3 - 1) / shiftOf 10 3 = 0 ∧
      numWindows 0 (shiftOf 10 3) ≠ (0 + shiftOf 10 3 - 1) / shiftOf 10 3 := by
  decide

/-- C4 (amended to non-empty waveforms): for `L ≥ 1` the windower uses
shift `S = max(1, W - C)`, yields exactly `ceil(L / S)` windows,
consecutive windows begin `S` samples apart, and every window —
the final one in particular — is clipped to the waveform's end
(`end = min(start + W, L) ≤ L`). -/
theorem windower_shift_and_count (L W C : Nat) (hL : 1 ≤ L) :
    1 ≤ shiftOf W C ∧
      numWindows L (shiftOf W C) =
        (L + shiftOf W C - 1) / shiftOf W C ∧
      (∀ i, windowStart (shiftOf W C) (i+1) =
        windowStart (shiftOf W C) i + shiftOf W C) ∧
      (∀ i, windowEnd L W (shiftOf W C) i =
        min (windowStart (shiftOf W C) i + W) L) ∧
      windowEnd L W (shiftOf W C) (numWindows L (shiftOf W C) - 1) ≤ L := by
  have hS : 1 ≤ shiftOf W C := by
    unfold shiftOf
    omega
  refine ⟨hS, ?_, ?_, ?_, ?_⟩
  · unfold numWindows
    have h1 : L + shiftOf W C - 1 = (L - 1) + shiftOf W C := by omega
    rw [h1, Nat.add_div_right _ (by omega)]
  · intro i
    unfold windowStart
    rw [Nat.succ_mul]
  · intro i
    rfl
  · exact Nat.min_le_right _ _

/-- Witness for C4 (amended) at `L = 7`, `W = 10`, `C = 3`. -/
theorem windower_shift_and_count_witness :
    1 ≤ 7 ∧
      (1 ≤ shiftOf 10 3 ∧
        numWindows 7 (shiftOf 10 3) = (7 + shiftOf 10 3 - 1) / shiftOf 10 3 ∧
        (∀ i, windowStart (shiftOf 10 3) (i+1) =
          windowStart (shiftOf 10 3) i + shiftOf 10 3) ∧
        (∀ i, windowEnd 7 10 (shiftOf 10 3) i =
          min (windowStart (shiftOf 10 3) i + 10) 7) ∧
        windowEnd 7 10 (shiftOf 10 3) (numWindows 7 (shiftOf 10 3) - 1) ≤ 7) :=
  ⟨by decide, windower_shift_and_count 7 10 3 (by decide)⟩

/-- C5 counterexample: at `L = 3`, `W = 2`, `C = 3` the shift floors at
`1` and there are three windows `[0,2)`, `[1,3)`, `[2,3)`; windows `0`
and `1` are consecutive, window `1` is not the final window, yet their
overlap is `1 < min(C, W) = 2` samples. -/
theorem windowing_overlap_counterexample :
    numWindows 3 (shiftOf 2 3) = 3 ∧ 0 + 2 < numWindows 3 (shiftOf 2 3) ∧
      windowEnd 3 2 (shiftOf 2 3) 0 = 2 ∧ windowStart (shiftOf 2 3) 1 = 1 ∧
      windowEnd 3 2 (shiftOf 2 3) 0 - windowStart (shiftOf 2 3) 1 <
        min 3 2 := by
  decide

/-- C5 (amended): for `W ≥ 1` the windows' sample ranges cover `[0, L)`
exactly and the last window ends exactly at `L`; moreover any two
consecutive windows whose earlier member is unclipped (`start + W ≤ L`)
overlap in at least `min(C, W - 1)` samples — `min(C, W)` is not
attainable when the shift floors at `1`, and pairs whose earlier window
is clipped by the waveform's end (the final stretch) may overlap less. -/
theorem windowing_coverage (L W C : Nat) (hW : 1 ≤ W) :
    (∀ x, x < L ↔ ∃ i, i < numWindows L (shiftOf W C) ∧
        windowStart (shiftOf W C) i ≤ x ∧
        x < windowEnd L W (shiftOf W C) i) ∧
      windowEnd L W (shiftOf W C) (numWindows L (shiftOf W C) - 1) = L ∧
      (∀ i, i + 1 < numWindows L (shiftOf W C) →
        windowStart (shiftOf W C) i + W ≤ L →
        windowStart (shiftOf W C) i ≤ windowStart (shiftOf W C) (i+1) ∧
        windowStart (shiftOf W C) (i+1) + min C (W - 1) ≤
          windowEnd L W (shiftOf W C) i) := by
  have hS : 1 ≤ shiftOf W C := by
    unfold shiftOf
    omega
  have hSW : shiftOf W C ≤ W := by
    unfold shiftOf
    omega
  refine ⟨?_, ?_, ?_⟩
  · intro x
    constructor
    · intro hx
      refine ⟨x / shiftOf W C, ?_, ?_, ?_⟩
      · unfold numWindows
        have : x / shiftOf W C ≤ (L - 1) / shiftOf W C :=
          Nat.div_le_div_right (by omega)
        omega
      · exact Nat.div_mul_le_self x (shiftOf W C)
      · have h1 : shiftOf W C * (x / shiftOf W C) + x % shiftOf W C = x :=
          Nat.div_add_mod x (shiftOf W C)
        have h2 : x % shiftOf W C < shiftOf W C := Nat.mod_lt x (by omega)
        have h3 : x / shiftOf W C * shiftOf W C =
            shiftOf W C * (x / shiftOf W C) := Nat.mul_comm _ _
        unfold windowEnd
        rw [h3]
        omega
    · rintro ⟨i, _, _, hxe⟩
      have : windowEnd L W (shiftOf W C) i ≤ L := Nat.min_le_right _ _
      omega
  · rcases Nat.eq_zero_or_pos L with hL0 | hL1
    · subst hL0
      unfold windowEnd numWindows
      simp
    · unfold numWindows windowEnd
      have h1 : shiftOf W C * ((L - 1) / shiftOf W C) + (L - 1) % shiftOf W C =
          L - 1 := Nat.div_add_mod (L - 1) (shiftOf W C)
      have h2 : (L - 1) % shiftOf W C < shiftOf W C := Nat.mod_lt _ (by omega)
      have h3 : ((L - 1) / shiftOf W C + 1 - 1) * shiftOf W C =
          shiftOf W C * ((L - 1) / shiftOf W C) := by
        rw [Nat.add_sub_cancel]
        exact Nat.mul_comm _ _
      rw [h3]
      omega
  · intro i _ hunclipped
    have hsucc : windowStart (shiftOf W C) (i+1) =
        windowStart (shiftOf W C) i + shiftOf W C := by
      unfold windowStart
      rw [Nat.succ_mul]
    have hend : windowEnd L W (shiftOf W C) i =
        windowStart (shiftOf W C) i + W := by
      unfold windowStart at hunclipped
      unfold windowEnd windowStart
      omega
    unfold shiftOf at hsucc hend ⊢
    omega

/-- Witness for C5 (amended) at `L = 3`, `W = 2`, `C = 3`. -/
theorem windowing_coverage_witness :
    (1 : Nat) ≤ 2 ∧
      ((∀ x, x < 3 ↔ ∃ i, i < numWindows 3 (shiftOf 2 3) ∧
          windowStart (shiftOf 2 3) i ≤ x ∧
          x < windowEnd 3 2 (shiftOf 2 3) i) ∧
        windowEnd 3 2 (shiftOf 2 3) (numWindows 3 (shiftOf 2 3) - 1) = 3 ∧
        (∀ i, i + 1 < numWindows 3 (shiftOf 2 3) →
          windowStart (shiftOf 2 3) i + 2 ≤ 3 →
          windowStart (shiftOf 2 3) i ≤ windowStart (shiftOf 2 3) (i+1) ∧
          windowStart (shiftOf 2 3) (i+1) + min 3 (2 - 1) ≤
            windowEnd 3 2 (shiftOf 2 3) i)) :=
  ⟨by decide, windowing_coverage 3 2 3 (by decide)⟩

/-! ## Claim theorem for the finish predicate -/

/-- C10: the finish predicate holds exactly when the sequence is
non-empty and its last token is the end-of-text token; the empty
sequence is never finished. -/
theorem beamsearch_is_finished_iff (end_token : Nat) (toks : List Nat) :
    (beamsearch_is_finished end_token toks = true ↔
      toks ≠ [] ∧ toks.getLast? = some end_token) ∧
      beamsearch_is_finished end_token [] = false := by
  refine ⟨?_, rfl⟩
  cases htl : toks.getLast? with
  | none =>
    have : toks = [] := List.getLast?_eq_none_iff.mp htl
    subst this
    simp [beamsearch_is_finished]
  | some t =>
    have hne : toks ≠ [] := by
      intro hcon
      subst hcon
      simp at htl
    simp [beamsearch_is_finished, htl, hne]

/-! ## Claim theorem for the special-token mask -/

/-- C6: the maskout vector has length `vocab_size` with `-∞` exactly at
the special indices and `0` elsewhere; it is added to the raw scores
exactly when the in-progress sequence length is at most 5, making every
special token's effective score `-∞` there, while for length `> 5` the
raw scores are used unmasked. -/
theorem special_token_mask_policy (vocab_size : Nat) (is_special : Nat → Bool)
    (logits : Nat → ℚ) (max_seq_len token : Nat) (htok : token < vocab_size) :
    (special_tokens_maskout vocab_size is_special).length = vocab_size ∧
      (special_tokens_maskout vocab_size is_special).getD token 0 =
        (if is_special token then (⊥ : WithBot ℚ) else 0) ∧
      (max_seq_len ≤ 5 → is_special token = true →
        effective_score vocab_size is_special logits max_seq_len token = ⊥) ∧
      (max_seq_len ≤ 5 → is_special token = false →
        effective_score vocab_size is_special logits max_seq_len token =
          (logits token : WithBot ℚ)) ∧
      (5 < max_seq_len →
        effective_score vocab_size is_special logits max_seq_len token =
          (logits token : WithBot ℚ)) := by
  have hget : (special_tokens_maskout vocab_size is_special).getD token 0 =
      (if is_special token then (⊥ : WithBot ℚ) else 0) := by
    unfold special_tokens_maskout
    rw [List.getD_eq_get?, List.get?_map, List.get?_range htok]
    rfl
  refine ⟨by simp [special_tokens_maskout], hget, ?_, ?_, ?_⟩
  · intro hlen hspec
    unfold effective_score
    rw [if_neg (by omega), hget, if_pos hspec]
    exact WithBot.add_bot _
  · intro hlen hspec
    unfold effective_score
    rw [if_neg (by omega), hget, if_neg (by simp [hspec])]
    exact add_zero _
  · intro hlen
    unfold effective_score
    rw [if_pos hlen]

/-- Witness for C6 at `vocab_size = 2`, `is_special = (· == 0)`,
zero logits, sequence length 3, token 0. -/
theorem special_token_mask_policy_witness :
    (0 : Nat) < 2 ∧
      ((special_tokens_maskout 2 (fun t => t == 0)).length = 2 ∧
        (special_tokens_maskout 2 (fun t => t == 0)).getD 0 0 =
          (if (0 : Nat) == 0 then (⊥ : WithBot ℚ) else 0) ∧
        ((3 : Nat) ≤ 5 → ((0 : Nat) == 0) = true →
          effective_score 2 (fun t => t == 0) (fun _ => (0 : ℚ)) 3 0 = ⊥) ∧
        ((3 : Nat) ≤ 5 → ((0 : Nat) == 0) = false →
          effective_score 2 (fun t => t == 0) (fun _ => (0 : ℚ)) 3 0 =
            ((0 : ℚ) : WithBot ℚ)) ∧
        (5 < 3 →
          effective_score 2 (fun t => t == 0) (fun _ => (0 : ℚ)) 3 0 =
            ((0 : ℚ) : WithBot ℚ))) :=
  ⟨by decide,
    special_token_mask_policy 2 (fun t => t == 0) (fun _ => (0 : ℚ)) 3 0
      (by decide)⟩

/-! ## Claim theorems for the special-token resolution -/

/-- C7 counterexample: with a tokenizer whose every special-token lookup
fails, the resolution prelude panics; it does not return
`UnknownLanguage` or `TokenizerError` to the caller. -/
theorem token_lookup_failure_counterexample :
    resolve_special_tokens ⟨fun _ => none⟩ = .panicked ∧
      resolve_special_tokens ⟨fun _ => none⟩ ≠ .err .unknownLanguage ∧
      resolve_special_tokens ⟨fun _ => none⟩ ≠ .err .tokenizerError := by
  refine ⟨rfl, ?_, ?_⟩ <;> simp [resolve_special_tokens]

/-- C7 (amended): when any of the seven special-token lookups fails, the
transcription call panics on the `unwrap` (transcribe.rs:121-127) —
the failure is not surfaced as an `UnknownLanguage`/`TokenizerError`
value. -/
theorem token_lookup_failure_panics (bpe : TokenizerModel)
    (h : bpe.special_token .startofTranscript = none ∨
      bpe.special_token .transcribeTask = none ∨
      bpe.special_token .startofPrev = none ∨
      bpe.special_token .languageTag = none ∨
      bpe.special_token .timestampZero = none ∨
      bpe.special_token .endofText = none ∨
      bpe.special_token .noTimeStamps = none) :
    resolve_special_tokens bpe = .panicked := by
  unfold resolve_special_tokens
  cases h1 : bpe.special_token .startofTranscript with
  | none => rfl
  | some t1 =>
  cases h2 : bpe.special_token .transcribeTask with
  | none => rfl
  | some t2 =>
  cases h3 : bpe.special_token .startofPrev with
  | none => rfl
  | some t3 =>
  cases h4 : bpe.special_token .languageTag with
  | none => rfl
  | some t4 =>
  cases h5 : bpe.special_token .timestampZero with
  | none => rfl
  | some t5 =>
  cases h6 : bpe.special_token .endofText with
  | none => rfl
  | some t6 =>
  cases h7 : bpe.special_token .noTimeStamps with
  | none => rfl
  | some t7 =>
    rcases h with h | h | h | h | h | h | h <;> simp_all

/-- Witness for C7 (amended): a tokenizer failing only the end-of-text
lookup. -/
theorem token_lookup_failure_panics_witness :
    ((⟨fun k => match k with
        | .endofText => none
        | _ => some 1⟩ : TokenizerModel).special_token .startofTranscript =
          none ∨
      (⟨fun k => match k with
        | .endofText => none
        | _ => some 1⟩ : TokenizerModel).special_token .transcribeTask =
          none ∨
      (⟨fun k => match k with
        | .endofText => none
        | _ => some 1⟩ : TokenizerModel).special_token .startofPrev = none ∨
      (⟨fun k => match k with
        | .endofText => none
        | _ => some 1⟩ : TokenizerModel).special_token .languageTag = none ∨
      (⟨fun k => match k with
        | .endofText => none
        | _ => some 1⟩ : TokenizerModel).special_token .timestampZero =
          none ∨
      (⟨fun k => match k with
        | .endofText => none
        | _ => some 1⟩ : TokenizerModel).special_token .endofText = none ∨
      (⟨fun k => match k with
        | .endofText => none
        | _ => some 1⟩ : TokenizerModel).special_token .noTimeStamps =
          none) ∧
      resolve_special_tokens ⟨fun k => match k with
        | .endofText => none
        | _ => some 1⟩ = .panicked :=
  ⟨by decide,
    token_lookup_failure_panics ⟨fun k => match k with
      | .endofText => none
      | _ => some 1⟩ (by decide)⟩

/-! ## Claim theorem for the spectrogram clip-and-pad step -/

/-- C8: the encoder input has time dimension
`min(n_ctx, n_ctx_max - padding) + padding`, never exceeds the
encoder's maximum context, ends in exactly `padding` zero frames, is the
unclipped spectrogram plus padding when `n_ctx + padding ≤ n_ctx_max`,
and has exactly `n_ctx_max` frames when clipping occurs. -/
theorem spectrogram_pad_and_clip {α : Type} (zero : α) (frames : List α)
    (n_ctx_max padding : Nat) (hpad : padding ≤ n_ctx_max) :
    (padAndClip zero frames n_ctx_max padding).length =
      min frames.length (n_ctx_max - padding) + padding ∧
      (padAndClip zero frames n_ctx_max padding).length ≤ n_ctx_max ∧
      (padAndClip zero frames n_ctx_max padding).drop
          (min frames.length (n_ctx_max - padding)) =
        List.replicate padding zero ∧
      (frames.length + padding ≤ n_ctx_max →
        padAndClip zero frames n_ctx_max padding =
          frames ++ List.replicate padding zero) ∧
      (n_ctx_max ≤ frames.length + padding →
        (padAndClip zero frames n_ctx_max padding).length = n_ctx_max) := by
  have hlen : (frames.take (min frames.length (n_ctx_max - padding))).length =
      min frames.length (n_ctx_max - padding) := by
    rw [List.length_take]
    omega
  have htotal : (padAndClip zero frames n_ctx_max padding).length =
      min frames.length (n_ctx_max - padding) + padding := by
    unfold padAndClip
    rw [List.length_append, hlen, List.length_replicate]
  refine ⟨htotal, by omega, ?_, ?_, ?_⟩
  · exact List.drop_left' hlen
  · intro hfit
    have hmin : min frames.length (n_ctx_max - padding) = frames.length := by
      omega
    unfold padAndClip
    rw [hmin, List.take_length]
  · intro hclip
    omega

/-- Witness for C8: three frames, maximum context 4, padding 2 — the
spectrogram is clipped to 2 frames and 2 zero frames are appended. -/
theorem spectrogram_pad_and_clip_witness :
    (2 : Nat) ≤ 4 ∧
      ((padAndClip (0 : Nat) [1, 2, 3] 4 2).length = min 3 (4 - 2) + 2 ∧
        (padAndClip (0 : Nat) [1, 2, 3] 4 2).length ≤ 4 ∧
        (padAndClip (0 : Nat) [1, 2, 3] 4 2).drop (min 3 (4 - 2)) =
          List.replicate 2 0 ∧
        ((3 : Nat) + 2 ≤ 4 →
          padAndClip (0 : Nat) [1, 2, 3] 4 2 = [1, 2, 3] ++
            List.replicate 2 0) ∧
        ((4 : Nat) ≤ 3 + 2 →
          (padAndClip (0 : Nat) [1, 2, 3] 4 2).length = 4)) :=
  ⟨by decide, spectrogram_pad_and_clip (0 : Nat) [1, 2, 3] 4 2 (by decide)⟩

end WhisperBurn
